import Mathlib

/-!
Verification of the dex_tracker_system repository against its specification.

Part 1 embeds `PostgresSchema.get_partition_queries` from
`src/database/schema.py`.  Python `datetime` values are modelled by the
fields the function reads (year, month, day), with the constructor
invariant `1 <= month <= 12` that `datetime(...)` enforces.  The Python
call `int(datetime(y, m, 1).timestamp())` is modelled by an exact count of
days from the Unix epoch (1970-01-01, UTC) times 86400; month starts are
integral seconds, so the float-to-int truncation in the source is exact.
The model is used for epoch years `1970 <= y`; the source applies
`timestamp()` only to such dates in any meaningful ingestion window.

Part 2 embeds `UniswapV3Processor` from
`src/processors/uniswap_v3_processor.py` over a small JSON value type.
The record classes it instantiates live in `database/models.py`, which is
not under `src/`; those records and the error taxonomy are modelled from
the specification (sections 3 and 7) and are marked as such.
-/

namespace DexTracker

/-- Calendar month with the validity invariant enforced by the Python
`datetime` constructor (`ValueError` outside `1..12`).  Day is always 1 at
the points where the source constructs these values. -/
structure Ym where
  year : Nat
  month : Nat
  month_lo : 1 ≤ month
  month_hi : month ≤ 12

/-- Input `datetime` as read by `get_partition_queries`: only `year`,
`month` and `day` participate (hours and finer are never read, and `day`
is discarded by the flooring step). -/
structure PyDate where
  year : Nat
  month : Nat
  day : Nat
  month_lo : 1 ≤ month
  month_hi : month ≤ 12

/-- Python `timedelta`; the `interval` argument of the source function.
The source never reads it, so a single seconds field suffices. -/
structure Timedelta where
  seconds : Int

/-- Leap-year test of the proleptic Gregorian calendar used by `datetime`. -/
def isLeap (y : Nat) : Bool :=
  y % 4 == 0 && (y % 100 != 0 || y % 400 == 0)

/-- Number of days in month `m` of year `y` (for `1 <= m <= 12`). -/
def monthLen (y m : Nat) : Nat :=
  if m = 2 then (if isLeap y then 29 else 28)
  else if m = 4 ∨ m = 6 ∨ m = 9 ∨ m = 11 then 30
  else 31

/-- Days from 1970-01-01 to the first day of the month `k` months after
January 1970. -/
def daysToMonth : Nat → Nat
  | 0 => 0
  | k + 1 => daysToMonth k + monthLen (1970 + k / 12) (k % 12 + 1)

/-- Absolute month index: `ymIdx ⟨y, m⟩ = y * 12 + (m - 1)`. -/
def ymIdx (c : Ym) : Nat := c.year * 12 + (c.month - 1)

/-- Month index of the epoch month January 1970. -/
def epochIdx : Nat := 1970 * 12

/-- Unix seconds of the first instant of the month with absolute index `i`
(clamped to 0 before the epoch; the model is used for `epochIdx ≤ i`). -/
def tsOfIdx (i : Nat) : Nat := 86400 * daysToMonth (i - epochIdx)

/-- Model of `int(datetime(c.year, c.month, 1).timestamp())` under UTC. -/
def tsYm (c : Ym) : Nat := tsOfIdx (ymIdx c)

/-- Zero-padded two-digit rendering, as `strftime` `%m` produces. -/
def pad2 (n : Nat) : String :=
  if n < 10 then "0" ++ toString n else toString n

/-- Zero-padded four-digit rendering, as `strftime` `%Y` produces for the
years in `datetime` range. -/
def pad4 (n : Nat) : String :=
  if n < 10 then "000" ++ toString n
  else if n < 100 then "00" ++ toString n
  else if n < 1000 then "0" ++ toString n
  else toString n

/-- Model of `current_date.strftime('%Y_%m')`. -/
def fmtYm (c : Ym) : String := pad4 c.year ++ "_" ++ pad2 c.month

/-- The values interpolated into one partition-creation statement: the
base table, the partition name `{table}_p{YYYY_MM}` and the half-open
`FOR VALUES FROM (range_start) TO (range_end)` bounds.  The surrounding
idempotent `DO $$ ... $$` SQL text is fixed boilerplate around exactly
these four values. -/
structure PartitionQuery where
  table : String
  partition_name : String
  partition_start : Nat
  partition_end : Nat
deriving DecidableEq

/-- The three base tables iterated by the source loop. -/
def baseTables : List String := ["swaps", "mints", "burns"]

/-- Lexicographic `datetime` comparison at equal day (both sides are
first-of-month values inside the loop). -/
def ymLt (a b : Ym) : Prop :=
  a.year < b.year ∨ (a.year = b.year ∧ a.month < b.month)

instance (a b : Ym) : Decidable (ymLt a b) :=
  inferInstanceAs (Decidable (_ ∨ _))

/-- Model of the December rollover in the loop body:
`datetime(y + 1, 1, 1)` when `month == 12`, else `datetime(y, m + 1, 1)`. -/
def nextMonth (c : Ym) : Ym :=
  if h : c.month = 12 then ⟨c.year + 1, 1, by omega, by omega⟩
  else ⟨c.year, c.month + 1, by omega, by have := c.month_hi; omega⟩

/-- Model of `datetime(start_date.year, start_date.month, 1)`. -/
def floorYm (d : PyDate) : Ym := ⟨d.year, d.month, d.month_lo, d.month_hi⟩

/-- Model of the ceiling step on `end_date`: first instant of the month
after its own month, with the December branch. -/
def ceilYm (d : PyDate) : Ym :=
  if h : d.month = 12 then ⟨d.year + 1, 1, by omega, by omega⟩
  else ⟨d.year, d.month + 1, by omega, by have := d.month_hi; omega⟩

/-- One statement of the inner `for table in ['swaps','mints','burns']`
loop, for month `c` and table `t`. -/
def mkQuery (t : String) (c : Ym) : PartitionQuery :=
  { table := t
    partition_name := t ++ "_p" ++ fmtYm c
    partition_start := tsYm c
    partition_end := tsYm (nextMonth c) }

/-- The three statements appended for one month of the outer loop. -/
def monthQueries (c : Ym) : List PartitionQuery :=
  baseTables.map (fun t => mkQuery t c)

theorem ymLt_iff (a b : Ym) : ymLt a b ↔ ymIdx a < ymIdx b := by
  have ha1 := a.month_lo
  have ha2 := a.month_hi
  have hb1 := b.month_lo
  have hb2 := b.month_hi
  unfold ymLt ymIdx
  omega

theorem ymIdx_nextMonth (c : Ym) : ymIdx (nextMonth c) = ymIdx c + 1 := by
  have h1 := c.month_lo
  have h2 := c.month_hi
  unfold nextMonth ymIdx
  split <;> simp <;> omega

/-- The `while current_date < end_date` loop of the source: per month it
emits the three per-table statements, then advances to the next month.
Each iteration advances `current_date` by exactly one calendar month, so
the loop runs exactly `ymIdx e - ymIdx cur` iterations; that bound is the
structural `fuel` argument here, while the loop guard is kept verbatim,
so the guard (not the fuel) decides every exit. -/
def partitionLoop (e : Ym) : Nat → Ym → List PartitionQuery
  | 0, _ => []
  | fuel + 1, cur =>
    if ymLt cur e then monthQueries cur ++ partitionLoop e fuel (nextMonth cur)
    else []

/-- Model of `PostgresSchema.get_partition_queries(start_date, end_date,
interval)`: floor the start, ceiling the end, then run the month loop.
The `interval` parameter is accepted and, as in the source, never read. -/
def get_partition_queries (start_date end_date : PyDate)
    (interval : Timedelta) : List PartitionQuery :=
  partitionLoop (ceilYm end_date)
    (ymIdx (ceilYm end_date) - ymIdx (floorYm start_date))
    (floorYm start_date)

/-- Lexicographic comparison of the two input datetimes (day granularity;
finer fields are irrelevant to the function modelled). -/
def dateLt (a b : PyDate) : Prop :=
  a.year < b.year ∨
    (a.year = b.year ∧
      (a.month < b.month ∨ (a.month = b.month ∧ a.day < b.day)))

instance (a b : PyDate) : Decidable (dateLt a b) :=
  inferInstanceAs (Decidable (_ ∨ _))

/-- Iterated month successor, used to index the months visited by the
loop. -/
def addMonths (c : Ym) : Nat → Ym
  | 0 => c
  | k + 1 => addMonths (nextMonth c) k

theorem ymIdx_addMonths (c : Ym) (k : Nat) :
    ymIdx (addMonths c k) = ymIdx c + k := by
  induction k generalizing c with
  | zero => rfl
  | succ k ih =>
    show ymIdx (addMonths (nextMonth c) k) = _
    rw [ih, ymIdx_nextMonth]
    omega

theorem ymIdx_floorYm (d : PyDate) :
    ymIdx (floorYm d) = d.year * 12 + (d.month - 1) := rfl

theorem ymIdx_ceilYm (d : PyDate) :
    ymIdx (ceilYm d) = d.year * 12 + (d.month - 1) + 1 := by
  have h1 := d.month_lo
  have h2 := d.month_hi
  unfold ceilYm ymIdx
  split <;> simp <;> omega

theorem monthLen_ge (y m : Nat) : 28 ≤ monthLen y m := by
  unfold monthLen
  split
  · split <;> omega
  · split <;> omega

theorem daysToMonth_succ_ge (k : Nat) :
    daysToMonth k + 28 ≤ daysToMonth (k + 1) := by
  have := monthLen_ge (1970 + k / 12) (k % 12 + 1)
  show daysToMonth k + 28 ≤ daysToMonth k + monthLen _ _
  omega

theorem daysToMonth_strictMono : StrictMono daysToMonth := by
  apply strictMono_nat_of_lt_succ
  intro k
  have := daysToMonth_succ_ge k
  omega

theorem tsOfIdx_le {i j : Nat} (hij : i ≤ j) : tsOfIdx i ≤ tsOfIdx j := by
  unfold tsOfIdx
  have : daysToMonth (i - epochIdx) ≤ daysToMonth (j - epochIdx) :=
    daysToMonth_strictMono.monotone (by omega)
  omega

theorem tsOfIdx_lt {i j : Nat} (hi : epochIdx ≤ i) (hij : i < j) :
    tsOfIdx i < tsOfIdx j := by
  unfold tsOfIdx
  have : daysToMonth (i - epochIdx) < daysToMonth (j - epochIdx) :=
    daysToMonth_strictMono (by omega)
  omega

theorem tsYm_eq_tsOfIdx (c : Ym) : tsYm c = tsOfIdx (ymIdx c) := rfl

theorem tsYm_nextMonth (c : Ym) :
    tsYm (nextMonth c) = tsOfIdx (ymIdx c + 1) := by
  rw [tsYm_eq_tsOfIdx, ymIdx_nextMonth]

/-- Closed form of the month loop: with fuel equal to the remaining month
count, it emits the per-month blocks of the consecutive months from `cur`
(exclusive of `e`). -/
theorem partitionLoop_eq (e : Ym) :
    ∀ (n : Nat) (cur : Ym), ymIdx e - ymIdx cur = n →
      partitionLoop e n cur
        = ((List.range n).map (fun k => monthQueries (addMonths cur k))).flatten := by
  intro n
  induction n with
  | zero => intro cur _; simp [partitionLoop]
  | succ n ih =>
    intro cur hn
    have hlt : ymLt cur e := (ymLt_iff cur e).mpr (by omega)
    have hnext : ymIdx e - ymIdx (nextMonth cur) = n := by
      rw [ymIdx_nextMonth]; omega
    show (if ymLt cur e then
        monthQueries cur ++ partitionLoop e n (nextMonth cur) else [])
      = _
    rw [if_pos hlt, ih (nextMonth cur) hnext, List.range_succ_eq_map]
    simp only [List.map_cons, List.map_map, List.flatten_cons]
    rfl

theorem filter_join {α : Type} (p : α → Bool) (L : List (List α)) :
    (L.flatten).filter p = (L.map (fun l => l.filter p)).flatten := by
  induction L with
  | nil => rfl
  | cons l L ih => simp [List.filter_append, ih]

theorem join_map_singleton {α β : Type} (f : α → β) (L : List α) :
    (L.map (fun x => [f x])).flatten = L.map f := by
  induction L with
  | nil => rfl
  | cons a L ih => simp [ih]

theorem filter_monthQueries (c : Ym) :
    ∀ t ∈ baseTables,
      (monthQueries c).filter (fun q => q.table == t) = [mkQuery t c] := by
  intro t ht
  simp only [baseTables, List.mem_cons, List.not_mem_nil, or_false] at ht
  rcases ht with rfl | rfl | rfl <;> rfl

/-- Union of consecutive half-open intervals `[f k, f (k+1))` for `k < n`
is the half-open interval `[f 0, f n)` when `f` is monotone. -/
theorem union_consecutive {f : Nat → Nat} (hm : Monotone f) :
    ∀ (n x : Nat),
      (∃ k, k < n ∧ f k ≤ x ∧ x < f (k + 1)) ↔ (f 0 ≤ x ∧ x < f n) := by
  intro n
  induction n with
  | zero =>
    intro x
    constructor
    · rintro ⟨k, hk, -⟩; omega
    · rintro ⟨h1, h2⟩; omega
  | succ n ih =>
    intro x
    constructor
    · rintro ⟨k, hk, hx1, hx2⟩
      refine ⟨le_trans (hm (Nat.zero_le k)) hx1,
        lt_of_lt_of_le hx2 (hm (by omega))⟩
    · rintro ⟨h1, h2⟩
      rcases le_or_lt (f n) x with h | h
      · exact ⟨n, by omega, h, h2⟩
      · obtain ⟨k, hk, hx1, hx2⟩ := (ih x).mpr ⟨h1, h⟩
        exact ⟨k, by omega, hx1, hx2⟩

theorem partitionLoop_succ (e : Ym) (fuel : Nat) (cur : Ym) :
    partitionLoop e (fuel + 1) cur =
      if ymLt cur e then
        monthQueries cur ++ partitionLoop e fuel (nextMonth cur)
      else [] := rfl

/-- Per-table view of the emitted statements: filtering the result to one
base table yields exactly one statement per month of the normalized
window, in calendar order. -/
theorem gpq_filter (s e : PyDate) (i : Timedelta) (t : String)
    (ht : t ∈ baseTables) :
    (get_partition_queries s e i).filter (fun q => q.table == t)
      = (List.range (ymIdx (ceilYm e) - ymIdx (floorYm s))).map
          (fun k => mkQuery t (addMonths (floorYm s) k)) := by
  rw [get_partition_queries, partitionLoop_eq _ _ _ rfl, filter_join,
    List.map_map]
  have hcong :
      ∀ k ∈ List.range (ymIdx (ceilYm e) - ymIdx (floorYm s)),
        ((fun l => l.filter (fun q => q.table == t)) ∘
            fun k => monthQueries (addMonths (floorYm s) k)) k
          = (fun k => [mkQuery t (addMonths (floorYm s) k)]) k := by
    intro k _
    exact filter_monthQueries _ t ht
  rw [List.map_congr_left hcong, join_map_singleton]

theorem length_flatten_const {α β : Type} (f : α → List β) (c : Nat)
    (h : ∀ a, (f a).length = c) (L : List α) :
    ((L.map f).flatten).length = c * L.length := by
  induction L with
  | nil => simp
  | cons a L ih => simp [h, ih, Nat.mul_succ]; omega

theorem mem_monthQueries_bounds (c : Ym) (q : PartitionQuery)
    (hq : q ∈ monthQueries c) :
    q.partition_start = tsYm c ∧ q.partition_end = tsYm (nextMonth c) := by
  simp only [monthQueries, baseTables, List.map_cons, List.map_nil,
    List.mem_cons, List.not_mem_nil, or_false] at hq
  rcases hq with rfl | rfl | rfl <;> exact ⟨rfl, rfl⟩

theorem dateLt_floor_lt_ceil {s e : PyDate} (hse : dateLt s e) :
    ymIdx (floorYm s) < ymIdx (ceilYm e) := by
  rw [ymIdx_floorYm, ymIdx_ceilYm]
  have h1 := s.month_lo
  have h2 := s.month_hi
  have h3 := e.month_lo
  have h4 := e.month_hi
  rcases hse with h | ⟨h, h5⟩
  · omega
  · rcases h5 with h5 | ⟨h5, _⟩ <;> omega

/-- C1.  For every valid time window `[s, e)` with `e > s` (and `s` not
before the Unix epoch, which is where `datetime.timestamp()` is
meaningful), the partition specs returned by `get_partition_queries`
cover exactly `[floor_to_month(s), ceil_to_month(e))`: per base table the
specs are exactly one per month of the normalized window in consecutive
calendar order, each range is half-open and nonempty, ranges are pairwise
non-overlapping, their union is exactly the normalized window, and the
total count is (number of months) times 3. -/
theorem get_partition_queries_cover (s e : PyDate) (i : Timedelta)
    (hys : 1970 ≤ s.year) (hse : dateLt s e) :
    (get_partition_queries s e i).length
        = 3 * (ymIdx (ceilYm e) - ymIdx (floorYm s))
    ∧ 1 ≤ ymIdx (ceilYm e) - ymIdx (floorYm s)
    ∧ (∀ t ∈ baseTables,
        (get_partition_queries s e i).filter (fun q => q.table == t)
          = (List.range (ymIdx (ceilYm e) - ymIdx (floorYm s))).map
              (fun k => mkQuery t (addMonths (floorYm s) k)))
    ∧ (∀ t ∈ baseTables, ∀ x : Nat,
        (∃ q ∈ (get_partition_queries s e i).filter (fun q => q.table == t),
            q.partition_start ≤ x ∧ x < q.partition_end)
          ↔ (tsYm (floorYm s) ≤ x ∧ x < tsYm (ceilYm e)))
    ∧ (∀ t ∈ baseTables,
        ((get_partition_queries s e i).filter
            (fun q => q.table == t)).Pairwise
          (fun q q2 => q.partition_end ≤ q2.partition_start))
    ∧ (∀ q ∈ get_partition_queries s e i,
        q.partition_start < q.partition_end) := by
  have hab : ymIdx (floorYm s) < ymIdx (ceilYm e) := dateLt_floor_lt_ceil hse
  have hepoch : epochIdx ≤ ymIdx (floorYm s) := by
    rw [ymIdx_floorYm]
    have := s.month_lo
    unfold epochIdx
    omega
  have hmono : Monotone (fun k => tsOfIdx (ymIdx (floorYm s) + k)) := by
    intro k1 k2 hk
    exact tsOfIdx_le (by omega)
  refine ⟨?_, by omega, fun t ht => gpq_filter s e i t ht, ?_, ?_, ?_⟩
  · rw [get_partition_queries, partitionLoop_eq _ _ _ rfl,
      length_flatten_const
        (fun k => monthQueries (addMonths (floorYm s) k)) 3 (fun c => rfl),
      List.length_range]
  · intro t ht x
    rw [gpq_filter s e i t ht]
    have hmk : ∀ k : Nat,
        (mkQuery t (addMonths (floorYm s) k)).partition_start
            = tsOfIdx (ymIdx (floorYm s) + k)
          ∧ (mkQuery t (addMonths (floorYm s) k)).partition_end
            = tsOfIdx (ymIdx (floorYm s) + k + 1) := by
      intro k
      constructor
      · show tsYm (addMonths (floorYm s) k) = _
        rw [tsYm_eq_tsOfIdx, ymIdx_addMonths]
      · show tsYm (nextMonth (addMonths (floorYm s) k)) = _
        rw [tsYm_nextMonth, ymIdx_addMonths]
    constructor
    · rintro ⟨q, hq, hx1, hx2⟩
      obtain ⟨k, hk, rfl⟩ := by
        simpa only [List.mem_map, List.mem_range] using hq
      rw [(hmk k).1] at hx1
      rw [(hmk k).2] at hx2
      have := (union_consecutive hmono
        (ymIdx (ceilYm e) - ymIdx (floorYm s)) x).mp ⟨k, hk, hx1, hx2⟩
      simpa only [Nat.add_zero, Nat.add_sub_cancel' (le_of_lt hab),
        ← tsYm_eq_tsOfIdx] using this
    · intro hx
      have hx2 : tsOfIdx (ymIdx (floorYm s) + 0) ≤ x
          ∧ x < tsOfIdx (ymIdx (floorYm s)
              + (ymIdx (ceilYm e) - ymIdx (floorYm s))) := by
        rw [Nat.add_zero, Nat.add_sub_cancel' (le_of_lt hab)]
        exact hx
      obtain ⟨k, hk, hx1, hx2⟩ := (union_consecutive hmono
        (ymIdx (ceilYm e) - ymIdx (floorYm s)) x).mpr hx2
      refine ⟨mkQuery t (addMonths (floorYm s) k), ?_, ?_, ?_⟩
      · simp only [List.mem_map, List.mem_range]
        exact ⟨k, hk, rfl⟩
      · rw [(hmk k).1]; exact hx1
      · rw [(hmk k).2]; exact hx2
  · intro t ht
    rw [gpq_filter s e i t ht, List.pairwise_map]
    refine (List.pairwise_lt_range _).imp ?_
    intro k1 k2 hk
    show tsYm (nextMonth (addMonths (floorYm s) k1))
      ≤ tsYm (addMonths (floorYm s) k2)
    rw [tsYm_nextMonth, ymIdx_addMonths, tsYm_eq_tsOfIdx, ymIdx_addMonths]
    exact tsOfIdx_le (by omega)
  · intro q hq
    rw [get_partition_queries, partitionLoop_eq _ _ _ rfl] at hq
    obtain ⟨l, hl, hql⟩ := List.mem_flatten.mp hq
    obtain ⟨k, hk, rfl⟩ := by
      simpa only [List.mem_map, List.mem_range] using hl
    obtain ⟨h1, h2⟩ := mem_monthQueries_bounds _ q hql
    rw [h1, h2, tsYm_eq_tsOfIdx, tsYm_nextMonth, ymIdx_addMonths]
    exact tsOfIdx_lt (by omega) (by omega)

/-- Concrete start date 2024-11-15 used by witnesses. -/
def wStart : PyDate := ⟨2024, 11, 15, by omega, by omega⟩

/-- Concrete end date 2025-01-03 used by witnesses. -/
def wEnd : PyDate := ⟨2025, 1, 3, by omega, by omega⟩

/-- A concrete interval argument (one day); the source ignores it. -/
def wInterval : Timedelta := ⟨86400⟩

/-- Witness for C1 at the concrete window 2024-11-15 .. 2025-01-03. -/
theorem get_partition_queries_cover_witness :
    (1970 ≤ wStart.year ∧ dateLt wStart wEnd)
    ∧ ((get_partition_queries wStart wEnd wInterval).length
          = 3 * (ymIdx (ceilYm wEnd) - ymIdx (floorYm wStart))
      ∧ 1 ≤ ymIdx (ceilYm wEnd) - ymIdx (floorYm wStart)
      ∧ (∀ t ∈ baseTables,
          (get_partition_queries wStart wEnd wInterval).filter
              (fun q => q.table == t)
            = (List.range (ymIdx (ceilYm wEnd) - ymIdx (floorYm wStart))).map
                (fun k => mkQuery t (addMonths (floorYm wStart) k)))
      ∧ (∀ t ∈ baseTables, ∀ x : Nat,
          (∃ q ∈ (get_partition_queries wStart wEnd wInterval).filter
              (fun q => q.table == t),
              q.partition_start ≤ x ∧ x < q.partition_end)
            ↔ (tsYm (floorYm wStart) ≤ x ∧ x < tsYm (ceilYm wEnd)))
      ∧ (∀ t ∈ baseTables,
          ((get_partition_queries wStart wEnd wInterval).filter
              (fun q => q.table == t)).Pairwise
            (fun q q2 => q.partition_end ≤ q2.partition_start))
      ∧ (∀ q ∈ get_partition_queries wStart wEnd wInterval,
          q.partition_start < q.partition_end)) :=
  ⟨⟨by decide, by decide⟩,
    get_partition_queries_cover wStart wEnd wInterval (by decide) (by decide)⟩

/-- Every emitted statement belongs to one base table and one month. -/
theorem mem_gpq (s e : PyDate) (i : Timedelta) (q : PartitionQuery)
    (hq : q ∈ get_partition_queries s e i) :
    ∃ t ∈ baseTables, ∃ c : Ym, q = mkQuery t c := by
  rw [get_partition_queries, partitionLoop_eq _ _ _ rfl] at hq
  obtain ⟨l, hl, hql⟩ := List.mem_flatten.mp hq
  obtain ⟨k, hk, rfl⟩ := by
    simpa only [List.mem_map, List.mem_range] using hl
  simp only [monthQueries, List.mem_map] at hql
  obtain ⟨t, ht, rfl⟩ := hql
  exact ⟨t, ht, _, rfl⟩

/-- C7.  Partition naming is deterministic with the format
`{table}_p{YYYY_MM}` (every emitted name is its table name, then `_p`,
then the zero-padded `YYYY_MM` rendering of some month), and it is
calendar-correct across a year boundary: a window starting in November of
year `Y` and ending in January of year `Y + 1` yields, per table, exactly
the partitions `{Y}_11`, `{Y}_12` and `{Y+1}_01`, in order. -/
theorem partition_names_year_boundary (Y ds de : Nat) (i : Timedelta) :
    (∀ (s e : PyDate) (j : Timedelta),
      ∀ q ∈ get_partition_queries s e j,
        ∃ c : Ym, q.partition_name
          = q.table ++ "_p" ++ (pad4 c.year ++ "_" ++ pad2 c.month))
    ∧ (get_partition_queries
          ⟨Y, 11, ds, by omega, by omega⟩
          ⟨Y + 1, 1, de, by omega, by omega⟩ i).map
        (fun q => q.partition_name)
      = ["swaps" ++ "_p" ++ (pad4 Y ++ "_" ++ "11"),
         "mints" ++ "_p" ++ (pad4 Y ++ "_" ++ "11"),
         "burns" ++ "_p" ++ (pad4 Y ++ "_" ++ "11"),
         "swaps" ++ "_p" ++ (pad4 Y ++ "_" ++ "12"),
         "mints" ++ "_p" ++ (pad4 Y ++ "_" ++ "12"),
         "burns" ++ "_p" ++ (pad4 Y ++ "_" ++ "12"),
         "swaps" ++ "_p" ++ (pad4 (Y + 1) ++ "_" ++ "01"),
         "mints" ++ "_p" ++ (pad4 (Y + 1) ++ "_" ++ "01"),
         "burns" ++ "_p" ++ (pad4 (Y + 1) ++ "_" ++ "01")] := by
  constructor
  · intro s e j q hq
    obtain ⟨t, ht, c, rfl⟩ := mem_gpq s e j q hq
    exact ⟨c, rfl⟩
  · have hfuel : ymIdx (ceilYm (⟨Y + 1, 1, de, by omega, by omega⟩ : PyDate))
        - ymIdx (floorYm (⟨Y, 11, ds, by omega, by omega⟩ : PyDate)) = 3 := by
      show (Y + 1) * 12 + (2 - 1) - (Y * 12 + (11 - 1)) = 3
      omega
    rw [get_partition_queries, hfuel, partitionLoop_eq _ 3 _ hfuel]
    with_unfolding_all rfl

/-- Witness for C7 at `Y = 2024`, with fully evaluated partition names. -/
theorem partition_names_year_boundary_witness :
    (get_partition_queries wStart wEnd wInterval).map
        (fun q => q.partition_name)
      = ["swaps_p2024_11", "mints_p2024_11", "burns_p2024_11",
         "swaps_p2024_12", "mints_p2024_12", "burns_p2024_12",
         "swaps_p2025_01", "mints_p2025_01", "burns_p2025_01"] :=
  (partition_names_year_boundary 2024 15 3 wInterval).2

/-- C8.  Whenever the normalized end (ceilinged) does not lie strictly
after the normalized start (floored), the loop body never runs:
`get_partition_queries` returns the empty list, and no error path exists
in the function. -/
theorem get_partition_queries_inverted_empty (s e : PyDate) (i : Timedelta)
    (h : ymIdx (ceilYm e) ≤ ymIdx (floorYm s)) :
    get_partition_queries s e i = [] := by
  rw [get_partition_queries]
  have h0 : ymIdx (ceilYm e) - ymIdx (floorYm s) = 0 := by omega
  rw [h0]
  rfl

/-- Witness for C8 at the inverted window 2024-03-05 .. 2024-01-10. -/
theorem get_partition_queries_inverted_empty_witness :
    (ymIdx (ceilYm (⟨2024, 1, 10, by omega, by omega⟩ : PyDate))
        ≤ ymIdx (floorYm (⟨2024, 3, 5, by omega, by omega⟩ : PyDate)))
    ∧ get_partition_queries ⟨2024, 3, 5, by omega, by omega⟩
        ⟨2024, 1, 10, by omega, by omega⟩ ⟨3600⟩ = [] :=
  ⟨by decide, get_partition_queries_inverted_empty _ _ _ (by decide)⟩

/-- C9 counterexample.  At the concrete inverted window
2024-06-01 .. 2024-02-20 the function returns normally with the empty
list; no `PartitionRangeError` (or any other error) is raised — the
source contains no raise path at all for inverted windows. -/
theorem inverted_window_returns_normally :
    get_partition_queries ⟨2024, 6, 1, by omega, by omega⟩
      ⟨2024, 2, 20, by omega, by omega⟩ ⟨86400⟩ = [] := by decide

/-- C9 amended.  An inverted or degenerate time window does not surface a
`PartitionRangeError`: `get_partition_queries` returns normally with an
empty sequence whenever the normalized window is empty or inverted. -/
theorem inverted_window_no_error (s e : PyDate) (i : Timedelta)
    (h : ¬ ymLt (floorYm s) (ceilYm e)) :
    get_partition_queries s e i = [] := by
  rw [ymLt_iff] at h
  rw [get_partition_queries]
  have h0 : ymIdx (ceilYm e) - ymIdx (floorYm s) = 0 := by omega
  rw [h0]
  rfl

/-- Witness for the amended C9 at the window 2025-05-02 .. 2025-03-04. -/
theorem inverted_window_no_error_witness :
    (¬ ymLt (floorYm (⟨2025, 5, 2, by omega, by omega⟩ : PyDate))
        (ceilYm (⟨2025, 3, 4, by omega, by omega⟩ : PyDate)))
    ∧ get_partition_queries ⟨2025, 5, 2, by omega, by omega⟩
        ⟨2025, 3, 4, by omega, by omega⟩ ⟨0⟩ = [] :=
  ⟨by decide, inverted_window_no_error _ _ _ (by decide)⟩

/-- C10.  The `interval` argument is never read: for any two interval
values the emitted statements are identical, so the granularity is always
calendar-monthly regardless of the interval passed. -/
theorem gpq_interval_irrelevant (s e : PyDate) (i1 i2 : Timedelta) :
    get_partition_queries s e i1 = get_partition_queries s e i2 := rfl

/-! Part 2: the event-normalization pipeline of
`src/processors/uniswap_v3_processor.py`. -/

/-- JSON-like payload value, the shape of subgraph responses handed to
the processor.  `null` models both JSON null and Python `None`. -/
inductive JVal where
  | null
  | str (s : String)
  | num (n : Int)
  | arr (xs : List JVal)
  | obj (kvs : List (String × JVal))

/-- Python `d[k]` key lookup on a dict payload; `none` models `KeyError`
(and the `TypeError` of subscripting a non-dict, which also aborts). -/
def jGet (v : JVal) (k : String) : Option JVal :=
  match v with
  | .obj kvs => kvs.lookup k
  | _ => none

/-- Python `int(x)`: identity on ints, decimal-string parse on strings
(`ValueError` on failure), `TypeError` on other shapes; failures are
`none`. -/
def jInt (v : JVal) : Option Int :=
  match v with
  | .num n => some n
  | .str s => s.toInt?
  | _ => none

/-- Python `d.get(k, [])` followed by iteration: the sub-event list of a
payload, empty when the key is absent. -/
def jGetList (v : JVal) (k : String) : List JVal :=
  match jGet v k with
  | some (.arr xs) => xs
  | _ => []

/-- Modelled from the spec: the error taxonomy of section 7.  The
repository's exception classes are not under `src/` (the processor
surfaces plain `KeyError`/`ValueError`/`TypeError`); the spec names the
failure of building the shared transaction context from a required
top-level field `MalformedTransactionError` and the failure of a single
event element `MalformedEventError` (carrying the event kind), and those
names are used for the corresponding failure points of the source. -/
inductive ProcError where
  | malformedTransaction (field : String)
  | malformedEvent (kind : String) (field : String)
  | typeError (ctx : String)
  | keyError (key : String)
deriving DecidableEq

/-- Modelled from the spec: `BaseTransaction` of `database/models.py`
(absent from `src/`), per spec section 3 ParentTransaction.  Fields hold
the payload values unchanged (gas values stay decimal strings; block
number and timestamp pass through `int(...)` in the processor). -/
structure BaseTransaction where
  id : JVal
  dex_id : String
  block_number : Int
  timestamp : Int
  gas_used : JVal
  gas_price : JVal

/-- Modelled from the spec: `SwapEvent` of `database/models.py` (absent
from `src/`).  Field set as in spec section 3 and the swaps table of
`src/database/schema.py`; extracted payload values are stored unchanged. -/
structure SwapEvent where
  parent_transaction : BaseTransaction
  timestamp : Int
  id : JVal
  token0_symbol : JVal
  token1_symbol : JVal
  token0_name : JVal
  token1_name : JVal
  token0_id : JVal
  token1_id : JVal
  amount0 : JVal
  amount1 : JVal
  amount_usd : JVal
  sender : JVal
  recipient : JVal
  origin : JVal
  fee_tier : JVal
  liquidity : JVal
  dex_id : String

/-- Modelled from the spec: `MintEvent` of `database/models.py` (absent
from `src/`); like a swap but with `owner` instead of sender/recipient. -/
structure MintEvent where
  parent_transaction : BaseTransaction
  timestamp : Int
  id : JVal
  token0_symbol : JVal
  token1_symbol : JVal
  token0_name : JVal
  token1_name : JVal
  token0_id : JVal
  token1_id : JVal
  amount0 : JVal
  amount1 : JVal
  amount_usd : JVal
  owner : JVal
  origin : JVal
  fee_tier : JVal
  liquidity : JVal
  dex_id : String

/-- Modelled from the spec: `BurnEvent` of `database/models.py` (absent
from `src/`); same field set as a mint. -/
structure BurnEvent where
  parent_transaction : BaseTransaction
  timestamp : Int
  id : JVal
  token0_symbol : JVal
  token1_symbol : JVal
  token0_name : JVal
  token1_name : JVal
  token0_id : JVal
  token1_id : JVal
  amount0 : JVal
  amount1 : JVal
  amount_usd : JVal
  owner : JVal
  origin : JVal
  fee_tier : JVal
  liquidity : JVal
  dex_id : String

/-- Modelled from the spec: `CollectEvent` of `database/models.py`
(absent from `src/`).  The source constructs it by a generic field
spread (`CollectEvent(parent_transaction=transaction, **collect)`), so
its payload fields are kept as the raw key set; per spec section 3 the
timestamp is copied from the parent at construction. -/
structure CollectEvent where
  parent_transaction : BaseTransaction
  timestamp : Int
  fields : List (String × JVal)

/-- Modelled from the spec: `FlashEvent` of `database/models.py` (absent
from `src/`); generic field spread like a collect. -/
structure FlashEvent where
  parent_transaction : BaseTransaction
  timestamp : Int
  fields : List (String × JVal)

/-- The five per-kind collections returned by `process_response` (the
fixed key set of the result dict) and accumulated by
`process_bulk_responses`. -/
structure Events where
  swaps : List SwapEvent
  mints : List MintEvent
  burns : List BurnEvent
  collects : List CollectEvent
  flashs : List FlashEvent

/-- The processor's `self.dex_id` as set by `UniswapV3Processor`. -/
def dexId : String := "uniswap_v3"

/-- Required top-level lookup in `process_response`; a missing key is the
spec's `MalformedTransactionError` for that field. -/
def txGet (d : JVal) (k : String) : Except ProcError JVal :=
  match jGet d k with
  | some v => .ok v
  | none => .error (.malformedTransaction k)

/-- Required top-level integer field (`int(transaction_data[k])`); both a
missing key and an unparsable value abort the transaction context, which
the spec taxonomy names `MalformedTransactionError`. -/
def txGetInt (d : JVal) (k : String) : Except ProcError Int := do
  let v ← txGet d k
  match jInt v with
  | some n => .ok n
  | none => .error (.malformedTransaction k)

/-- Required field of a single event element; a missing key fails the
whole sub-list extraction, which the spec taxonomy names
`MalformedEventError` for that event kind. -/
def evGet (kind : String) (v : JVal) (k : String) : Except ProcError JVal :=
  match jGet v k with
  | some x => .ok x
  | none => .error (.malformedEvent kind k)

/-- Nested access `el['pool'][tok][field]` used for token descriptors. -/
def evGetTok (kind : String) (el : JVal) (tok field : String) :
    Except ProcError JVal := do
  let pool ← evGet kind el "pool"
  let t ← evGet kind pool tok
  evGet kind t field

/-- Nested access `el['pool'][field]` used for feeTier and liquidity. -/
def evGetPool (kind : String) (el : JVal) (field : String) :
    Except ProcError JVal := do
  let pool ← evGet kind el "pool"
  evGet kind pool field

/-- The `BaseTransaction(...)` construction at the top of
`process_response`, reading the required top-level fields in source
order. -/
def buildBaseTransaction (transaction_data : JVal) :
    Except ProcError BaseTransaction := do
  let i ← txGet transaction_data "id"
  let bn ← txGetInt transaction_data "blockNumber"
  let ts ← txGetInt transaction_data "timestamp"
  let gu ← txGet transaction_data "gasUsed"
  let gp ← txGet transaction_data "gasPrice"
  .ok { id := i, dex_id := dexId, block_number := bn, timestamp := ts,
        gas_used := gu, gas_price := gp }

/-- The `SwapEvent(...)` construction for one element of `swaps_data`,
with the per-field extractions in source order. -/
def processSwap (transaction : BaseTransaction) (swap : JVal) :
    Except ProcError SwapEvent := do
  let i ← evGet "swap" swap "id"
  let t0sym ← evGetTok "swap" swap "token0" "symbol"
  let t1sym ← evGetTok "swap" swap "token1" "symbol"
  let t0name ← evGetTok "swap" swap "token0" "name"
  let t1name ← evGetTok "swap" swap "token1" "name"
  let t0id ← evGetTok "swap" swap "token0" "id"
  let t1id ← evGetTok "swap" swap "token1" "id"
  let a0 ← evGet "swap" swap "amount0"
  let a1 ← evGet "swap" swap "amount1"
  let ausd ← evGet "swap" swap "amountUSD"
  let sender ← evGet "swap" swap "sender"
  let recipient ← evGet "swap" swap "recipient"
  let origin ← evGet "swap" swap "origin"
  let feeTier ← evGetPool "swap" swap "feeTier"
  let liquidity ← evGetPool "swap" swap "liquidity"
  .ok { parent_transaction := transaction,
        timestamp := transaction.timestamp,
        id := i,
        token0_symbol := t0sym, token1_symbol := t1sym,
        token0_name := t0name, token1_name := t1name,
        token0_id := t0id, token1_id := t1id,
        amount0 := a0, amount1 := a1, amount_usd := ausd,
        sender := sender, recipient := recipient,
        origin := origin, fee_tier := feeTier, liquidity := liquidity,
        dex_id := dexId }

/-- The element loop shared by the `_process_*` extractors: build the
output list in input order, aborting on the first failing element (the
source loop appends per element and re-raises any failure). -/
def mapME {α β : Type} (f : α → Except ProcError β) :
    List α → Except ProcError (List β)
  | [] => .ok []
  | a :: as => do
    let b ← f a
    let bs ← mapME f as
    .ok (b :: bs)

/-- `_process_swaps`: empty input short-circuits to `[]`; otherwise every
element is mapped in order and the first failure aborts the whole
sub-list (the source re-raises out of its `except` block). -/
def _process_swaps (swaps_data : List JVal)
    (transaction : BaseTransaction) : Except ProcError (List SwapEvent) :=
  if swaps_data.length = 0 then .ok []
  else mapME (processSwap transaction) swaps_data

/-- The `MintEvent(...)` construction for one element of `mints_data`. -/
def processMint (transaction : BaseTransaction) (mint : JVal) :
    Except ProcError MintEvent := do
  let i ← evGet "mint" mint "id"
  let t0sym ← evGetTok "mint" mint "token0" "symbol"
  let t1sym ← evGetTok "mint" mint "token1" "symbol"
  let t0name ← evGetTok "mint" mint "token0" "name"
  let t1name ← evGetTok "mint" mint "token1" "name"
  let t0id ← evGetTok "mint" mint "token0" "id"
  let t1id ← evGetTok "mint" mint "token1" "id"
  let a0 ← evGet "mint" mint "amount0"
  let a1 ← evGet "mint" mint "amount1"
  let ausd ← evGet "mint" mint "amountUSD"
  let owner ← evGet "mint" mint "owner"
  let origin ← evGet "mint" mint "origin"
  let feeTier ← evGetPool "mint" mint "feeTier"
  let liquidity ← evGetPool "mint" mint "liquidity"
  .ok { parent_transaction := transaction,
        timestamp := transaction.timestamp,
        id := i,
        token0_symbol := t0sym, token1_symbol := t1sym,
        token0_name := t0name, token1_name := t1name,
        token0_id := t0id, token1_id := t1id,
        amount0 := a0, amount1 := a1, amount_usd := ausd,
        owner := owner, origin := origin,
        fee_tier := feeTier, liquidity := liquidity,
        dex_id := dexId }

/-- `_process_mints`, with the same shape as `_process_swaps`. -/
def _process_mints (mints_data : List JVal)
    (transaction : BaseTransaction) : Except ProcError (List MintEvent) :=
  if mints_data.length = 0 then .ok []
  else mapME (processMint transaction) mints_data

/-- The `BurnEvent(...)` construction for one element of `burns_data`
(field extraction order as in the source, where the token ids come
before the token names). -/
def processBurn (transaction : BaseTransaction) (burn : JVal) :
    Except ProcError BurnEvent := do
  let i ← evGet "burn" burn "id"
  let t0sym ← evGetTok "burn" burn "token0" "symbol"
  let t1sym ← evGetTok "burn" burn "token1" "symbol"
  let t0id ← evGetTok "burn" burn "token0" "id"
  let t1id ← evGetTok "burn" burn "token1" "id"
  let t0name ← evGetTok "burn" burn "token0" "name"
  let t1name ← evGetTok "burn" burn "token1" "name"
  let a0 ← evGet "burn" burn "amount0"
  let a1 ← evGet "burn" burn "amount1"
  let ausd ← evGet "burn" burn "amountUSD"
  let owner ← evGet "burn" burn "owner"
  let origin ← evGet "burn" burn "origin"
  let feeTier ← evGetPool "burn" burn "feeTier"
  let liquidity ← evGetPool "burn" burn "liquidity"
  .ok { parent_transaction := transaction,
        timestamp := transaction.timestamp,
        id := i,
        token0_symbol := t0sym, token1_symbol := t1sym,
        token0_name := t0name, token1_name := t1name,
        token0_id := t0id, token1_id := t1id,
        amount0 := a0, amount1 := a1, amount_usd := ausd,
        owner := owner, origin := origin,
        fee_tier := feeTier, liquidity := liquidity,
        dex_id := dexId }

/-- `_process_burns`, with the same shape as `_process_swaps`. -/
def _process_burns (burns_data : List JVal)
    (transaction : BaseTransaction) : Except ProcError (List BurnEvent) :=
  if burns_data.length = 0 then .ok []
  else mapME (processBurn transaction) burns_data

/-- One element of `collects_data`:
`CollectEvent(parent_transaction=transaction, **collect)` requires the
element to be a mapping (`TypeError` otherwise) and spreads its raw key
set; the timestamp is copied from the parent per the spec-modelled
`CollectEvent`. -/
def processCollect (transaction : BaseTransaction) (collect : JVal) :
    Except ProcError CollectEvent :=
  match collect with
  | .obj kvs =>
    .ok { parent_transaction := transaction,
          timestamp := transaction.timestamp, fields := kvs }
  | _ => .error (.typeError "collect")

/-- `_process_collects`, with the same empty-input and first-failure
shape as the explicit extractors. -/
def _process_collects (collects_data : List JVal)
    (transaction : BaseTransaction) :
    Except ProcError (List CollectEvent) :=
  if collects_data.length = 0 then .ok []
  else mapME (processCollect transaction) collects_data

/-- One element of `flashs_data`, generic spread like a collect. -/
def processFlash (transaction : BaseTransaction) (flash : JVal) :
    Except ProcError FlashEvent :=
  match flash with
  | .obj kvs =>
    .ok { parent_transaction := transaction,
          timestamp := transaction.timestamp, fields := kvs }
  | _ => .error (.typeError "flash")

/-- `_process_flashs`, reading the `flashed` sub-list of the payload. -/
def _process_flashs (flashs_data : List JVal)
    (transaction : BaseTransaction) :
    Except ProcError (List FlashEvent) :=
  if flashs_data.length = 0 then .ok []
  else mapME (processFlash transaction) flashs_data

/-- `UniswapV3Processor.process_response`: build the shared transaction
context, then the five sub-lists in source order; any failure aborts the
whole payload with no partial result. -/
def process_response (transaction_data : JVal) :
    Except ProcError Events := do
  let transaction ← buildBaseTransaction transaction_data
  let swaps ← _process_swaps (jGetList transaction_data "swaps") transaction
  let mints ← _process_mints (jGetList transaction_data "mints") transaction
  let burns ← _process_burns (jGetList transaction_data "burns") transaction
  let collects ←
    _process_collects (jGetList transaction_data "collects") transaction
  let flashs ←
    _process_flashs (jGetList transaction_data "flashed") transaction
  .ok { swaps := swaps, mints := mints, burns := burns,
        collects := collects, flashs := flashs }

/-- The body of the `for transaction_data in ...` loop of
`process_bulk_responses`: normalize one transaction and extend the five
accumulator collections. -/
def bulkStep (results : Events) (transaction_data : JVal) :
    Except ProcError Events := do
  let events ← process_response transaction_data
  .ok { swaps := results.swaps ++ events.swaps,
        mints := results.mints ++ events.mints,
        burns := results.burns ++ events.burns,
        collects := results.collects ++ events.collects,
        flashs := results.flashs ++ events.flashs }

/-- `UniswapV3Processor.process_bulk_responses`: iterate
`response_data['data']['transactions']`, extending the five accumulator
collections per transaction; any failure propagates (the `except` block
logs and re-raises) and the local accumulators are discarded. -/
def process_bulk_responses (response_data : JVal) :
    Except ProcError Events := do
  let d ← match jGet response_data "data" with
    | some v => .ok v
    | none => .error (.keyError "data")
  let txsVal ← match jGet d "transactions" with
    | some v => .ok v
    | none => .error (.keyError "transactions")
  let txs ← match txsVal with
    | .arr l => (.ok l : Except ProcError (List JVal))
    | _ => .error (.typeError "transactions")
  txs.foldlM bulkStep
    { swaps := [], mints := [], burns := [], collects := [], flashs := [] }

/-- The five required top-level payload fields of the transaction
context: identifier, block number, timestamp and the two gas fields. -/
def requiredTxFields : List String :=
  ["id", "blockNumber", "timestamp", "gasUsed", "gasPrice"]

theorem except_bind_ok {α β : Type} (a : α)
    (f : α → Except ProcError β) : (Except.ok a >>= f) = f a := rfl

theorem except_bind_error {α β : Type} (e : ProcError)
    (f : α → Except ProcError β) :
    ((Except.error e : Except ProcError α) >>= f) = .error e := rfl

theorem bind_ok_inv {α β : Type} {x : Except ProcError α}
    {f : α → Except ProcError β} {b : β} (h : (x >>= f) = .ok b) :
    ∃ a, x = .ok a ∧ f a = .ok b := by
  cases x with
  | error e => exact Except.noConfusion h
  | ok a => exact ⟨a, rfl, h⟩

theorem bind_error_inv {α β : Type} {x : Except ProcError α}
    {f : α → Except ProcError β} {e : ProcError}
    (h : (x >>= f) = .error e) :
    x = .error e ∨ ∃ a, x = .ok a ∧ f a = .error e := by
  cases x with
  | error e2 =>
    left
    have : e2 = e := Except.error.inj h
    rw [this]
  | ok a => exact Or.inr ⟨a, rfl, h⟩

theorem txGet_ok {d : JVal} {k : String} {v : JVal} :
    txGet d k = .ok v ↔ jGet d k = some v := by
  unfold txGet
  cases jGet d k <;> simp

theorem txGet_error {d : JVal} {k : String} {e : ProcError}
    (h : txGet d k = .error e) : e = .malformedTransaction k := by
  unfold txGet at h
  cases hj : jGet d k <;> rw [hj] at h
  · exact (Except.error.inj h).symm
  · exact Except.noConfusion h

theorem txGetInt_error {d : JVal} {k : String} {e : ProcError}
    (h : txGetInt d k = .error e) : e = .malformedTransaction k := by
  unfold txGetInt at h
  rcases bind_error_inv h with h1 | ⟨v, h1, h2⟩
  · exact txGet_error h1
  · cases hj : jInt v <;> rw [hj] at h2
    · exact (Except.error.inj h2).symm
    · exact Except.noConfusion h2

theorem txGetInt_ok_field {d : JVal} {k : String} {n : Int}
    (h : txGetInt d k = .ok n) : ∃ v, jGet d k = some v := by
  unfold txGetInt at h
  obtain ⟨v, h1, -⟩ := bind_ok_inv h
  exact ⟨v, txGet_ok.mp h1⟩

theorem evGet_ok {kind : String} {v : JVal} {k : String} {x : JVal} :
    evGet kind v k = .ok x ↔ jGet v k = some x := by
  unfold evGet
  cases jGet v k <;> simp

theorem mapME_ok_length {α β : Type} {f : α → Except ProcError β} :
    ∀ {l : List α} {res : List β}, mapME f l = .ok res →
      res.length = l.length := by
  intro l
  induction l with
  | nil =>
    intro res h
    have : ([] : List β) = res := Except.ok.inj h
    rw [← this]
    rfl
  | cons a as ih =>
    intro res h
    unfold mapME at h
    obtain ⟨b, hb, h⟩ := bind_ok_inv h
    obtain ⟨bs, hbs, h⟩ := bind_ok_inv h
    have : b :: bs = res := Except.ok.inj h
    rw [← this]
    simp [ih hbs]


theorem mapME_ok_mem {α β : Type} {f : α → Except ProcError β} :
    ∀ {l : List α} {res : List β}, mapME f l = .ok res →
      ∀ b ∈ res, ∃ a ∈ l, f a = .ok b := by
  intro l
  induction l with
  | nil =>
    intro res h b hb
    have : ([] : List β) = res := Except.ok.inj h
    rw [← this] at hb
    exact absurd hb (List.not_mem_nil b)
  | cons a as ih =>
    intro res h b hb
    unfold mapME at h
    obtain ⟨b0, hb0, h⟩ := bind_ok_inv h
    obtain ⟨bs, hbs, h⟩ := bind_ok_inv h
    have : b0 :: bs = res := Except.ok.inj h
    rw [← this] at hb
    rcases List.mem_cons.mp hb with rfl | hb
    · exact ⟨a, List.mem_cons_self a as, hb0⟩
    · obtain ⟨a2, ha2, hfa2⟩ := ih hbs b hb
      exact ⟨a2, List.mem_cons_of_mem a ha2, hfa2⟩

theorem mapME_ok_get {α β : Type} {f : α → Except ProcError β} :
    ∀ {l : List α} {res : List β}, mapME f l = .ok res →
      ∀ (i : Nat) (h1 : i < l.length) (h2 : i < res.length),
        f (l.get ⟨i, h1⟩) = .ok (res.get ⟨i, h2⟩) := by
  intro l
  induction l with
  | nil =>
    intro res h i h1 h2
    exact absurd h1 (by simp)
  | cons a as ih =>
    intro res h i h1 h2
    unfold mapME at h
    obtain ⟨b0, hb0, h⟩ := bind_ok_inv h
    obtain ⟨bs, hbs, h⟩ := bind_ok_inv h
    have hres : b0 :: bs = res := Except.ok.inj h
    subst hres
    cases i with
    | zero => exact hb0
    | succ i => exact ih hbs i (by simpa using h1) (by simpa using h2)

theorem buildBaseTransaction_error_shape {d : JVal} {err : ProcError}
    (h : buildBaseTransaction d = .error err) :
    ∃ f ∈ requiredTxFields, err = .malformedTransaction f := by
  unfold buildBaseTransaction at h
  rcases bind_error_inv h with h1 | ⟨i, h1, h⟩
  · exact ⟨"id", by decide, txGet_error h1⟩
  rcases bind_error_inv h with h2 | ⟨bn, h2, h⟩
  · exact ⟨"blockNumber", by decide, txGetInt_error h2⟩
  rcases bind_error_inv h with h3 | ⟨ts, h3, h⟩
  · exact ⟨"timestamp", by decide, txGetInt_error h3⟩
  rcases bind_error_inv h with h4 | ⟨gu, h4, h⟩
  · exact ⟨"gasUsed", by decide, txGet_error h4⟩
  rcases bind_error_inv h with h5 | ⟨gp, h5, h⟩
  · exact ⟨"gasPrice", by decide, txGet_error h5⟩
  exact Except.noConfusion h

theorem buildBaseTransaction_ok_fields {d : JVal} {tx : BaseTransaction}
    (h : buildBaseTransaction d = .ok tx) :
    jGet d "id" = some tx.id
    ∧ (∃ v, jGet d "blockNumber" = some v)
    ∧ (∃ v, jGet d "timestamp" = some v)
    ∧ jGet d "gasUsed" = some tx.gas_used
    ∧ jGet d "gasPrice" = some tx.gas_price := by
  unfold buildBaseTransaction at h
  obtain ⟨i, h1, h⟩ := bind_ok_inv h
  obtain ⟨bn, h2, h⟩ := bind_ok_inv h
  obtain ⟨ts, h3, h⟩ := bind_ok_inv h
  obtain ⟨gu, h4, h⟩ := bind_ok_inv h
  obtain ⟨gp, h5, h⟩ := bind_ok_inv h
  have hrec := Except.ok.inj h
  subst hrec
  exact ⟨txGet_ok.mp h1, txGetInt_ok_field h2, txGetInt_ok_field h3,
    txGet_ok.mp h4, txGet_ok.mp h5⟩

/-- C2.  A transaction payload missing any required top-level field
(identifier, block number, timestamp, or a gas field) makes
`process_response` fail with the MalformedTransactionError of the spec
taxonomy (naming one of the required fields), aborting the whole payload:
no event collections are produced. -/
theorem process_response_missing_required (d : JVal) (f : String)
    (hf : f ∈ requiredTxFields) (hm : jGet d f = none) :
    (∃ f2 ∈ requiredTxFields,
      process_response d = .error (.malformedTransaction f2))
    ∧ ∀ ev, process_response d ≠ .ok ev := by
  have hb : ∃ f2 ∈ requiredTxFields,
      buildBaseTransaction d = .error (.malformedTransaction f2) := by
    cases hbb : buildBaseTransaction d with
    | error e =>
      obtain ⟨f2, hf2, rfl⟩ := buildBaseTransaction_error_shape hbb
      exact ⟨f2, hf2, rfl⟩
    | ok tx =>
      exfalso
      obtain ⟨h1, ⟨v2, h2⟩, ⟨v3, h3⟩, h4, h5⟩ :=
        buildBaseTransaction_ok_fields hbb
      simp only [requiredTxFields, List.mem_cons, List.not_mem_nil,
        or_false] at hf
      rcases hf with rfl | rfl | rfl | rfl | rfl <;> simp_all
  obtain ⟨f2, hf2, hberr⟩ := hb
  constructor
  · refine ⟨f2, hf2, ?_⟩
    unfold process_response
    rw [hberr, except_bind_error]
  · intro ev hok
    unfold process_response at hok
    rw [hberr, except_bind_error] at hok
    exact Except.noConfusion hok

/-- Concrete payload missing only its `timestamp` field. -/
def txMissingTs : JVal :=
  .obj [("id", .str "t1"), ("blockNumber", .str "7"),
        ("gasUsed", .str "21000"), ("gasPrice", .str "5"),
        ("swaps", .arr [])]

/-- Witness for C2 at a payload with no `timestamp`. -/
theorem process_response_missing_required_witness :
    ("timestamp" ∈ requiredTxFields ∧ jGet txMissingTs "timestamp" = none)
    ∧ ((∃ f2 ∈ requiredTxFields,
        process_response txMissingTs = .error (.malformedTransaction f2))
      ∧ ∀ ev, process_response txMissingTs ≠ .ok ev) :=
  ⟨⟨by decide, rfl⟩,
    process_response_missing_required txMissingTs "timestamp"
      (by decide) rfl⟩

theorem foldlM_bulkStep_error (t : JVal) (rest : List JVal)
    (err : ProcError) (ht : process_response t = .error err) :
    ∀ (pre : List JVal) (acc : Events),
      (∀ p ∈ pre, ∃ ev, process_response p = .ok ev) →
      (pre ++ t :: rest).foldlM bulkStep acc = .error err := by
  intro pre
  induction pre with
  | nil =>
    intro acc hpre
    show (t :: rest).foldlM bulkStep acc = .error err
    rw [List.foldlM_cons]
    have hstep : bulkStep acc t = .error err := by
      unfold bulkStep
      rw [ht, except_bind_error]
    rw [hstep, except_bind_error]
  | cons p ps ih =>
    intro acc hpre
    obtain ⟨ev, hev⟩ := hpre p (List.mem_cons_self p ps)
    show (p :: (ps ++ t :: rest)).foldlM bulkStep acc = .error err
    rw [List.foldlM_cons]
    have hstep : bulkStep acc p
        = .ok { swaps := acc.swaps ++ ev.swaps,
                mints := acc.mints ++ ev.mints,
                burns := acc.burns ++ ev.burns,
                collects := acc.collects ++ ev.collects,
                flashs := acc.flashs ++ ev.flashs } := by
      unfold bulkStep
      rw [hev, except_bind_ok]
    rw [hstep, except_bind_ok]
    exact ih _ (fun q hq => hpre q (List.mem_cons_of_mem p hq))

/-- C3.  If the normalization of any single transaction of the batch
fails (all transactions before it succeeding), the entire
`process_bulk_responses` call fails by re-raising that underlying error,
and no accumulated collections reach the caller. -/
theorem process_bulk_responses_aborts (response_data dataV : JVal)
    (txs pre rest : List JVal) (t : JVal) (err : ProcError)
    (h1 : jGet response_data "data" = some dataV)
    (h2 : jGet dataV "transactions" = some (.arr txs))
    (h3 : txs = pre ++ t :: rest)
    (h4 : ∀ p ∈ pre, ∃ ev, process_response p = .ok ev)
    (h5 : process_response t = .error err) :
    process_bulk_responses response_data = .error err
    ∧ ∀ r, process_bulk_responses response_data ≠ .ok r := by
  have hmain : process_bulk_responses response_data = .error err := by
    unfold process_bulk_responses
    simp only [h1, h2, except_bind_ok]
    subst h3
    exact foldlM_bulkStep_error t rest err h5 pre _ h4
  exact ⟨hmain, fun r hr => by rw [hmain] at hr; exact Except.noConfusion hr⟩

/-- Token descriptor of the sample pool (token0). -/
def tok0 : JVal :=
  .obj [("symbol", .str "WETH"), ("name", .str "Wrapped Ether"),
        ("id", .str "0xc02a")]

/-- Token descriptor of the sample pool (token1). -/
def tok1 : JVal :=
  .obj [("symbol", .str "USDC"), ("name", .str "USD Coin"),
        ("id", .str "0xa0b8")]

/-- Sample pool with both optional pool fields present. -/
def pool0 : JVal :=
  .obj [("token0", tok0), ("token1", tok1), ("feeTier", .str "500"),
        ("liquidity", .str "426")]

/-- Sample well-formed swap element carrying a 25-significant-digit
decimal amount that exceeds binary floating-point precision. -/
def swap0 : JVal :=
  .obj [("id", .str "s0"), ("pool", pool0),
        ("amount0", .str "123456789012345678901234.5"),
        ("amount1", .str "-7.25"), ("amountUSD", .str "99.9"),
        ("sender", .str "0xaaa"), ("recipient", .str "0xbbb"),
        ("origin", .str "0xccc")]

/-- Sample well-formed transaction payload with one swap and one
collect. -/
def sampleTx : JVal :=
  .obj [("id", .str "t0"), ("blockNumber", .str "21000000"),
        ("timestamp", .str "1730419205"), ("gasUsed", .str "21000"),
        ("gasPrice", .str "1000000007"),
        ("swaps", .arr [swap0]),
        ("collects", .arr [.obj [("id", .str "c0"),
                                 ("amount0", .str "3.5")]])]

/-- The transaction context extracted from the sample payload. -/
def tx0 : BaseTransaction :=
  match buildBaseTransaction sampleTx with
  | .ok t => t
  | .error _ => ⟨.null, "", 0, 0, .null, .null⟩

/-- The event collections produced from the sample payload. -/
def sampleOut : Events :=
  match process_response sampleTx with
  | .ok ev => ev
  | .error _ => ⟨[], [], [], [], []⟩

/-- The `data` object of the sample batch response. -/
def respData : JVal := .obj [("transactions", .arr [sampleTx, txMissingTs])]

/-- Sample batch response: one good transaction, then one missing its
timestamp. -/
def respBatch : JVal := .obj [("data", respData)]

/-- Witness for C3 at the sample batch. -/
theorem process_bulk_responses_aborts_witness :
    (jGet respBatch "data" = some respData
      ∧ jGet respData "transactions" = some (.arr [sampleTx, txMissingTs])
      ∧ process_response txMissingTs
          = .error (.malformedTransaction "timestamp"))
    ∧ (process_bulk_responses respBatch
          = .error (.malformedTransaction "timestamp")
      ∧ ∀ r, process_bulk_responses respBatch ≠ .ok r) :=
  ⟨⟨rfl, rfl, by with_unfolding_all rfl⟩,
    process_bulk_responses_aborts respBatch respData
      [sampleTx, txMissingTs] [sampleTx] [] txMissingTs
      (.malformedTransaction "timestamp") rfl rfl rfl
      (by
        intro p hp
        rcases List.mem_singleton.mp hp with rfl
        exact ⟨sampleOut, by with_unfolding_all rfl⟩)
      (by with_unfolding_all rfl)⟩

theorem processSwap_ok {tx : BaseTransaction} {swap : JVal} {s : SwapEvent}
    (h : processSwap tx swap = .ok s) :
    s.parent_transaction = tx ∧ s.timestamp = tx.timestamp
    ∧ jGet swap "amount0" = some s.amount0
    ∧ jGet swap "amount1" = some s.amount1
    ∧ jGet swap "amountUSD" = some s.amount_usd := by
  unfold processSwap at h
  obtain ⟨i, h1, h⟩ := bind_ok_inv h
  obtain ⟨t0sym, h2, h⟩ := bind_ok_inv h
  obtain ⟨t1sym, h3, h⟩ := bind_ok_inv h
  obtain ⟨t0name, h4, h⟩ := bind_ok_inv h
  obtain ⟨t1name, h5, h⟩ := bind_ok_inv h
  obtain ⟨t0id, h6, h⟩ := bind_ok_inv h
  obtain ⟨t1id, h7, h⟩ := bind_ok_inv h
  obtain ⟨a0, h8, h⟩ := bind_ok_inv h
  obtain ⟨a1, h9, h⟩ := bind_ok_inv h
  obtain ⟨ausd, h10, h⟩ := bind_ok_inv h
  obtain ⟨sender, h11, h⟩ := bind_ok_inv h
  obtain ⟨recipient, h12, h⟩ := bind_ok_inv h
  obtain ⟨origin, h13, h⟩ := bind_ok_inv h
  obtain ⟨feeTier, h14, h⟩ := bind_ok_inv h
  obtain ⟨liquidity, h15, h⟩ := bind_ok_inv h
  have hrec := Except.ok.inj h
  subst hrec
  exact ⟨rfl, rfl, evGet_ok.mp h8, evGet_ok.mp h9, evGet_ok.mp h10⟩

theorem processMint_ok {tx : BaseTransaction} {mint : JVal} {m : MintEvent}
    (h : processMint tx mint = .ok m) :
    m.parent_transaction = tx ∧ m.timestamp = tx.timestamp
    ∧ jGet mint "amount0" = some m.amount0
    ∧ jGet mint "amount1" = some m.amount1
    ∧ jGet mint "amountUSD" = some m.amount_usd := by
  unfold processMint at h
  obtain ⟨i, h1, h⟩ := bind_ok_inv h
  obtain ⟨t0sym, h2, h⟩ := bind_ok_inv h
  obtain ⟨t1sym, h3, h⟩ := bind_ok_inv h
  obtain ⟨t0name, h4, h⟩ := bind_ok_inv h
  obtain ⟨t1name, h5, h⟩ := bind_ok_inv h
  obtain ⟨t0id, h6, h⟩ := bind_ok_inv h
  obtain ⟨t1id, h7, h⟩ := bind_ok_inv h
  obtain ⟨a0, h8, h⟩ := bind_ok_inv h
  obtain ⟨a1, h9, h⟩ := bind_ok_inv h
  obtain ⟨ausd, h10, h⟩ := bind_ok_inv h
  obtain ⟨owner, h11, h⟩ := bind_ok_inv h
  obtain ⟨origin, h12, h⟩ := bind_ok_inv h
  obtain ⟨feeTier, h13, h⟩ := bind_ok_inv h
  obtain ⟨liquidity, h14, h⟩ := bind_ok_inv h
  have hrec := Except.ok.inj h
  subst hrec
  exact ⟨rfl, rfl, evGet_ok.mp h8, evGet_ok.mp h9, evGet_ok.mp h10⟩

theorem processBurn_ok {tx : BaseTransaction} {burn : JVal} {b : BurnEvent}
    (h : processBurn tx burn = .ok b) :
    b.parent_transaction = tx ∧ b.timestamp = tx.timestamp
    ∧ jGet burn "amount0" = some b.amount0
    ∧ jGet burn "amount1" = some b.amount1
    ∧ jGet burn "amountUSD" = some b.amount_usd := by
  unfold processBurn at h
  obtain ⟨i, h1, h⟩ := bind_ok_inv h
  obtain ⟨t0sym, h2, h⟩ := bind_ok_inv h
  obtain ⟨t1sym, h3, h⟩ := bind_ok_inv h
  obtain ⟨t0id, h4, h⟩ := bind_ok_inv h
  obtain ⟨t1id, h5, h⟩ := bind_ok_inv h
  obtain ⟨t0name, h6, h⟩ := bind_ok_inv h
  obtain ⟨t1name, h7, h⟩ := bind_ok_inv h
  obtain ⟨a0, h8, h⟩ := bind_ok_inv h
  obtain ⟨a1, h9, h⟩ := bind_ok_inv h
  obtain ⟨ausd, h10, h⟩ := bind_ok_inv h
  obtain ⟨owner, h11, h⟩ := bind_ok_inv h
  obtain ⟨origin, h12, h⟩ := bind_ok_inv h
  obtain ⟨feeTier, h13, h⟩ := bind_ok_inv h
  obtain ⟨liquidity, h14, h⟩ := bind_ok_inv h
  have hrec := Except.ok.inj h
  subst hrec
  exact ⟨rfl, rfl, evGet_ok.mp h8, evGet_ok.mp h9, evGet_ok.mp h10⟩

theorem processCollect_ok {tx : BaseTransaction} {c : JVal}
    {ce : CollectEvent} (h : processCollect tx c = .ok ce) :
    ce.parent_transaction = tx ∧ ce.timestamp = tx.timestamp := by
  unfold processCollect at h
  cases c <;> try exact Except.noConfusion h
  have hrec := Except.ok.inj h
  subst hrec
  exact ⟨rfl, rfl⟩

theorem processFlash_ok {tx : BaseTransaction} {c : JVal}
    {fe : FlashEvent} (h : processFlash tx c = .ok fe) :
    fe.parent_transaction = tx ∧ fe.timestamp = tx.timestamp := by
  unfold processFlash at h
  cases c <;> try exact Except.noConfusion h
  have hrec := Except.ok.inj h
  subst hrec
  exact ⟨rfl, rfl⟩

theorem _process_swaps_mem {sd : List JVal} {tx : BaseTransaction}
    {res : List SwapEvent} (h : _process_swaps sd tx = .ok res) :
    ∀ s ∈ res, ∃ a ∈ sd, processSwap tx a = .ok s := by
  unfold _process_swaps at h
  split at h
  · have hres := Except.ok.inj h
    subst hres
    intro s hs
    exact absurd hs (List.not_mem_nil s)
  · exact mapME_ok_mem h

theorem _process_mints_mem {sd : List JVal} {tx : BaseTransaction}
    {res : List MintEvent} (h : _process_mints sd tx = .ok res) :
    ∀ s ∈ res, ∃ a ∈ sd, processMint tx a = .ok s := by
  unfold _process_mints at h
  split at h
  · have hres := Except.ok.inj h
    subst hres
    intro s hs
    exact absurd hs (List.not_mem_nil s)
  · exact mapME_ok_mem h

theorem _process_burns_mem {sd : List JVal} {tx : BaseTransaction}
    {res : List BurnEvent} (h : _process_burns sd tx = .ok res) :
    ∀ s ∈ res, ∃ a ∈ sd, processBurn tx a = .ok s := by
  unfold _process_burns at h
  split at h
  · have hres := Except.ok.inj h
    subst hres
    intro s hs
    exact absurd hs (List.not_mem_nil s)
  · exact mapME_ok_mem h

theorem _process_collects_mem {sd : List JVal} {tx : BaseTransaction}
    {res : List CollectEvent} (h : _process_collects sd tx = .ok res) :
    ∀ s ∈ res, ∃ a ∈ sd, processCollect tx a = .ok s := by
  unfold _process_collects at h
  split at h
  · have hres := Except.ok.inj h
    subst hres
    intro s hs
    exact absurd hs (List.not_mem_nil s)
  · exact mapME_ok_mem h

theorem _process_flashs_mem {sd : List JVal} {tx : BaseTransaction}
    {res : List FlashEvent} (h : _process_flashs sd tx = .ok res) :
    ∀ s ∈ res, ∃ a ∈ sd, processFlash tx a = .ok s := by
  unfold _process_flashs at h
  split at h
  · have hres := Except.ok.inj h
    subst hres
    intro s hs
    exact absurd hs (List.not_mem_nil s)
  · exact mapME_ok_mem h

theorem process_response_ok_parts {d : JVal} {ev : Events}
    (h : process_response d = .ok ev) :
    ∃ tx, buildBaseTransaction d = .ok tx
      ∧ _process_swaps (jGetList d "swaps") tx = .ok ev.swaps
      ∧ _process_mints (jGetList d "mints") tx = .ok ev.mints
      ∧ _process_burns (jGetList d "burns") tx = .ok ev.burns
      ∧ _process_collects (jGetList d "collects") tx = .ok ev.collects
      ∧ _process_flashs (jGetList d "flashed") tx = .ok ev.flashs := by
  unfold process_response at h
  obtain ⟨tx, htx, h⟩ := bind_ok_inv h
  obtain ⟨sw, hsw, h⟩ := bind_ok_inv h
  obtain ⟨mi, hmi, h⟩ := bind_ok_inv h
  obtain ⟨bu, hbu, h⟩ := bind_ok_inv h
  obtain ⟨co, hco, h⟩ := bind_ok_inv h
  obtain ⟨fl, hfl, h⟩ := bind_ok_inv h
  have hrec := Except.ok.inj h
  subst hrec
  exact ⟨tx, htx, hsw, hmi, hbu, hco, hfl⟩

/-- C4.  For every payload accepted by `process_response`, every event
record of every kind (swap, mint, burn, collect, flash) carries a
timestamp equal to the timestamp of its own parent transaction. -/
theorem event_timestamp_eq_parent (d : JVal) (ev : Events)
    (h : process_response d = .ok ev) :
    (∀ s ∈ ev.swaps, s.timestamp = s.parent_transaction.timestamp)
    ∧ (∀ m ∈ ev.mints, m.timestamp = m.parent_transaction.timestamp)
    ∧ (∀ b ∈ ev.burns, b.timestamp = b.parent_transaction.timestamp)
    ∧ (∀ c ∈ ev.collects, c.timestamp = c.parent_transaction.timestamp)
    ∧ (∀ f ∈ ev.flashs, f.timestamp = f.parent_transaction.timestamp) := by
  obtain ⟨tx, htx, hsw, hmi, hbu, hco, hfl⟩ := process_response_ok_parts h
  refine ⟨?_, ?_, ?_, ?_, ?_⟩
  · intro s hs
    obtain ⟨a, ha, hps⟩ := _process_swaps_mem hsw s hs
    obtain ⟨hp, ht, -, -, -⟩ := processSwap_ok hps
    rw [ht, hp]
  · intro m hm
    obtain ⟨a, ha, hpm⟩ := _process_mints_mem hmi m hm
    obtain ⟨hp, ht, -, -, -⟩ := processMint_ok hpm
    rw [ht, hp]
  · intro b hb
    obtain ⟨a, ha, hpb⟩ := _process_burns_mem hbu b hb
    obtain ⟨hp, ht⟩ := processBurn_ok hpb |>.imp id (fun x => x.1)
    rw [ht, hp]
  · intro c hc
    obtain ⟨a, ha, hpc⟩ := _process_collects_mem hco c hc
    obtain ⟨hp, ht⟩ := processCollect_ok hpc
    rw [ht, hp]
  · intro f hf
    obtain ⟨a, ha, hpf⟩ := _process_flashs_mem hfl f hf
    obtain ⟨hp, ht⟩ := processFlash_ok hpf
    rw [ht, hp]

/-- Witness for C4 at the sample payload (one swap, one collect). -/
theorem event_timestamp_eq_parent_witness :
    process_response sampleTx = .ok sampleOut
    ∧ ((∀ s ∈ sampleOut.swaps, s.timestamp = s.parent_transaction.timestamp)
      ∧ (∀ m ∈ sampleOut.mints, m.timestamp = m.parent_transaction.timestamp)
      ∧ (∀ b ∈ sampleOut.burns, b.timestamp = b.parent_transaction.timestamp)
      ∧ (∀ c ∈ sampleOut.collects,
          c.timestamp = c.parent_transaction.timestamp)
      ∧ (∀ f ∈ sampleOut.flashs,
          f.timestamp = f.parent_transaction.timestamp)) :=
  ⟨by with_unfolding_all rfl,
    event_timestamp_eq_parent sampleTx sampleOut
      (by with_unfolding_all rfl)⟩

/-- Sample pool with the optional `feeTier` key entirely absent (the
swaps table of `src/database/schema.py` declares `fee_tier` nullable,
and the spec marks it optional). -/
def poolNoFee : JVal :=
  .obj [("token0", tok0), ("token1", tok1), ("liquidity", .str "426")]

/-- Swap element that is fully well formed except that its pool carries
no `feeTier` key. -/
def swapNoFee : JVal :=
  .obj [("id", .str "s1"), ("pool", poolNoFee),
        ("amount0", .str "1"), ("amount1", .str "2"),
        ("amountUSD", .str "3"), ("sender", .str "0xaaa"),
        ("recipient", .str "0xbbb"), ("origin", .str "0xccc")]

/-- Transaction payload whose only flaw is the absent optional
`feeTier` of its single swap. -/
def txNoFee : JVal :=
  .obj [("id", .str "t2"), ("blockNumber", .str "21000001"),
        ("timestamp", .str "1730419210"), ("gasUsed", .str "21000"),
        ("gasPrice", .str "1000000007"), ("swaps", .arr [swapNoFee])]

/-- C5 (code bug).  The spec requires absent optional fields (origin,
fee tier, liquidity) to be captured as an explicit unset state with
normalization still succeeding, and the schema declares those columns
nullable; but the processor subscripts them unconditionally, so a swap
whose pool lacks `feeTier` makes the whole payload fail instead of
producing a record with the field unset. -/
theorem swap_missing_feeTier_fails :
    process_response txNoFee = .error (.malformedEvent "swap" "feeTier")
    ∧ ∀ ev, process_response txNoFee ≠ .ok ev := by
  constructor
  · with_unfolding_all rfl
  · intro ev hok
    rw [show process_response txNoFee
        = .error (.malformedEvent "swap" "feeTier")
      from by with_unfolding_all rfl] at hok
    exact Except.noConfusion hok

/-- C6.  The amount fields of swap, mint and burn records, and the
parent transaction gas price, are stored as the exact payload values,
unchanged (the model carries them as strings and has no floating-point
type anywhere): the record field equals the input value, per index. -/
theorem amount_fields_preserved :
    (∀ (tx : BaseTransaction) (sd : List JVal) (res : List SwapEvent),
      _process_swaps sd tx = .ok res →
        res.length = sd.length
        ∧ ∀ (i : Nat) (h1 : i < sd.length) (h2 : i < res.length),
            jGet (sd.get ⟨i, h1⟩) "amount0"
                = some ((res.get ⟨i, h2⟩).amount0)
            ∧ jGet (sd.get ⟨i, h1⟩) "amount1"
                = some ((res.get ⟨i, h2⟩).amount1)
            ∧ jGet (sd.get ⟨i, h1⟩) "amountUSD"
                = some ((res.get ⟨i, h2⟩).amount_usd))
    ∧ (∀ (tx : BaseTransaction) (sd : List JVal) (res : List MintEvent),
      _process_mints sd tx = .ok res →
        res.length = sd.length
        ∧ ∀ (i : Nat) (h1 : i < sd.length) (h2 : i < res.length),
            jGet (sd.get ⟨i, h1⟩) "amount0"
                = some ((res.get ⟨i, h2⟩).amount0)
            ∧ jGet (sd.get ⟨i, h1⟩) "amount1"
                = some ((res.get ⟨i, h2⟩).amount1)
            ∧ jGet (sd.get ⟨i, h1⟩) "amountUSD"
                = some ((res.get ⟨i, h2⟩).amount_usd))
    ∧ (∀ (tx : BaseTransaction) (sd : List JVal) (res : List BurnEvent),
      _process_burns sd tx = .ok res →
        res.length = sd.length
        ∧ ∀ (i : Nat) (h1 : i < sd.length) (h2 : i < res.length),
            jGet (sd.get ⟨i, h1⟩) "amount0"
                = some ((res.get ⟨i, h2⟩).amount0)
            ∧ jGet (sd.get ⟨i, h1⟩) "amount1"
                = some ((res.get ⟨i, h2⟩).amount1)
            ∧ jGet (sd.get ⟨i, h1⟩) "amountUSD"
                = some ((res.get ⟨i, h2⟩).amount_usd))
    ∧ (∀ (d : JVal) (tx : BaseTransaction),
        buildBaseTransaction d = .ok tx →
          jGet d "gasPrice" = some tx.gas_price) := by
  refine ⟨?_, ?_, ?_, fun d tx h =>
    (buildBaseTransaction_ok_fields h).2.2.2.2⟩
  · intro tx sd res h
    by_cases hlen : sd.length = 0
    · unfold _process_swaps at h
      rw [if_pos hlen] at h
      have hres := Except.ok.inj h
      subst hres
      exact ⟨by simp [hlen], fun i h1 h2 => absurd h1 (by omega)⟩
    · unfold _process_swaps at h
      rw [if_neg hlen] at h
      exact ⟨mapME_ok_length h,
        fun i h1 h2 => (processSwap_ok (mapME_ok_get h i h1 h2)).2.2⟩
  · intro tx sd res h
    by_cases hlen : sd.length = 0
    · unfold _process_mints at h
      rw [if_pos hlen] at h
      have hres := Except.ok.inj h
      subst hres
      exact ⟨by simp [hlen], fun i h1 h2 => absurd h1 (by omega)⟩
    · unfold _process_mints at h
      rw [if_neg hlen] at h
      exact ⟨mapME_ok_length h,
        fun i h1 h2 => (processMint_ok (mapME_ok_get h i h1 h2)).2.2⟩
  · intro tx sd res h
    by_cases hlen : sd.length = 0
    · unfold _process_burns at h
      rw [if_pos hlen] at h
      have hres := Except.ok.inj h
      subst hres
      exact ⟨by simp [hlen], fun i h1 h2 => absurd h1 (by omega)⟩
    · unfold _process_burns at h
      rw [if_neg hlen] at h
      exact ⟨mapME_ok_length h,
        fun i h1 h2 => (processBurn_ok (mapME_ok_get h i h1 h2)).2.2⟩

/-- Witness for C6: the 25-significant-digit decimal amount of the
sample swap round-trips into the produced record character for
character. -/
theorem amount_fields_preserved_witness :
    _process_swaps [swap0] tx0 = .ok sampleOut.swaps
    ∧ jGet ([swap0].get ⟨0, by decide⟩) "amount0"
        = some ((sampleOut.swaps.get ⟨0, by with_unfolding_all decide⟩).amount0)
    ∧ (sampleOut.swaps.get ⟨0, by with_unfolding_all decide⟩).amount0
        = .str "123456789012345678901234.5" :=
  ⟨by with_unfolding_all rfl,
    (((amount_fields_preserved).1 tx0 [swap0] sampleOut.swaps
        (by with_unfolding_all rfl)).2 0 (by decide)
        (by with_unfolding_all decide)).1,
    by with_unfolding_all rfl⟩

end DexTracker
